import Mathlib

/-!
Shallow embedding of the CyberXNoteloom synthesis and DSP core
(`noteloom/synthesizer.py`, `noteloom/pipeline.py`, `noteloom/effects.py`,
`noteloom/converter.py`) over exact arithmetic, together with theorems
settling the specification claims about it.

Conventions of the embedding:
* Python / NumPy scalar floats are modelled as exact rationals `ℚ` where the
  code stays in rational arithmetic, and as reals `ℝ` where the code uses
  transcendental functions (`np.sin`, `np.exp`, `np.tan`, `np.cos`).
* `int(x)` (Python truncation toward zero) is `pyInt` / `pyIntR`.
* A NumPy call that raises an exception is modelled with `Except String`;
  the error string records which exception the library raises.
* 2-D buffers `(num_samples, channels)` are modelled row-major
  (`List (List ℚ)`, one inner list per sample frame) in the synthesizer /
  converter, and channel-major (`List (List ℝ)`, one inner list per channel)
  in the effects, matching which axis the corresponding code iterates over.
* NumPy's pseudo-random draws (`np.random.uniform`, `np.random.randn`) are
  modelled as explicit arguments: the embedded function receives the values
  the generator produced.
-/

namespace Noteloom

/-- Python `int(x)` applied to a real-valued scalar: truncation toward zero. -/
def pyInt (q : ℚ) : ℤ := if 0 ≤ q then ⌊q⌋ else -⌊-q⌋

/-- `np.linspace(a, b, num, endpoint=False)`: `num` points `a + (b-a)*i/num`. -/
def linspaceNoEnd (a b : ℚ) (num : ℕ) : List ℚ :=
  (List.range num).map (fun i : ℕ => a + (b - a) * (i : ℚ) / num)

/-- `np.linspace(a, b, num, endpoint=True)`: `num` points including `b`. -/
def linspaceEnd (a b : ℚ) (num : ℕ) : List ℚ :=
  if num ≤ 1 then List.replicate num a
  else (List.range num).map (fun i : ℕ => a + (b - a) * (i : ℚ) / ((num : ℚ) - 1))

/-- `synthesizer.apply_adsr_envelope(note_duration, sample_rate, attack, decay,
sustain_level, release)`.  `np.linspace` raises `ValueError` on a negative
sample count, which is the only exception this function can produce; the
clamped `sustain_samples` is never negative.  Note the final step: the
envelope is zero-padded when shorter than `total_samples` but is NOT
truncated when longer. -/
def apply_adsr_envelope (note_duration sample_rate : ℚ)
    (attack : ℚ := 1/100) (decay : ℚ := 1/10)
    (sustain_level : ℚ := 7/10) (release : ℚ := 1/5) :
    Except String (List ℚ) :=
  let total_samples := pyInt (note_duration * sample_rate)
  let attack_samples := pyInt (attack * sample_rate)
  let decay_samples := pyInt (decay * sample_rate)
  let release_samples := pyInt (release * sample_rate)
  let sustain_samples :=
    max (total_samples - (attack_samples + decay_samples + release_samples)) 0
  if attack_samples < 0 ∨ decay_samples < 0 ∨ release_samples < 0 then
    .error "ValueError: Number of samples must be non-negative"
  else
    let attack_env := linspaceNoEnd 0 1 attack_samples.toNat
    let decay_env := linspaceNoEnd 1 sustain_level decay_samples.toNat
    let sustain_env := List.replicate sustain_samples.toNat sustain_level
    let release_env := linspaceEnd sustain_level 0 release_samples.toNat
    let envelope := attack_env ++ decay_env ++ sustain_env ++ release_env
    if (envelope.length : ℤ) < total_samples then
      .ok (envelope ++ List.replicate (total_samples - envelope.length).toNat 0)
    else
      .ok envelope

end Noteloom

namespace Noteloom

theorem length_linspaceNoEnd (a b : ℚ) (num : ℕ) :
    (linspaceNoEnd a b num).length = num := by
  rw [linspaceNoEnd, List.length_map, List.length_range]

theorem length_linspaceEnd (a b : ℚ) (num : ℕ) :
    (linspaceEnd a b num).length = num := by
  rw [linspaceEnd]
  split
  · rw [List.length_replicate]
  · rw [List.length_map, List.length_range]

theorem pyInt_nonneg {q : ℚ} (h : 0 ≤ q) : 0 ≤ pyInt q := by
  simp only [pyInt, if_pos h]
  exact Int.floor_nonneg.mpr h

theorem pyInt_eq_floor {q : ℚ} (h : 0 ≤ q) : pyInt q = ⌊q⌋ := by
  simp only [pyInt, if_pos h]

/-- With a positive sample rate all three segment sample counts are
nonnegative, so no `np.linspace` call raises and the generator returns an
envelope for every duration (validation never happens). -/
theorem apply_adsr_envelope_ok (note_duration sample_rate : ℚ)
    (attack decay release sustain_level : ℚ)
    (ha : 0 ≤ attack) (hd : 0 ≤ decay) (hr : 0 ≤ release)
    (hsr : 0 ≤ sample_rate) :
    ∃ l, apply_adsr_envelope note_duration sample_rate
        attack decay sustain_level release = .ok l := by
  have hcond : ¬(pyInt (attack * sample_rate) < 0 ∨
      pyInt (decay * sample_rate) < 0 ∨ pyInt (release * sample_rate) < 0) := by
    push_neg
    exact ⟨pyInt_nonneg (mul_nonneg ha hsr), pyInt_nonneg (mul_nonneg hd hsr),
      pyInt_nonneg (mul_nonneg hr hsr)⟩
  unfold apply_adsr_envelope
  rw [if_neg hcond]
  dsimp only
  split
  · exact ⟨_, rfl⟩
  · exact ⟨_, rfl⟩

/-- Closed form for the length of the generated envelope: the concatenated
segments have `A + D + S + R` samples (`S` the clamped sustain count) and the
final zero-padding only ever makes the result longer, never shorter, so the
returned length is the *maximum* of the segment total and `total_samples` —
not `total_samples` itself. -/
theorem apply_adsr_envelope_length (d r a dc sl rl : ℚ) (A D R T : ℤ)
    (hA : pyInt (a * r) = A) (hD : pyInt (dc * r) = D)
    (hR : pyInt (rl * r) = R) (hT : pyInt (d * r) = T)
    (hA0 : 0 ≤ A) (hD0 : 0 ≤ D) (hR0 : 0 ≤ R) :
    (apply_adsr_envelope d r a dc sl rl).map List.length =
      .ok (max (A.toNat + (D.toNat +
        ((max (T - (A + D + R)) 0).toNat + R.toNat))) T.toNat) := by
  unfold apply_adsr_envelope
  dsimp only
  rw [hA, hD, hR, hT]
  rw [if_neg (by push_neg; exact ⟨hA0, hD0, hR0⟩)]
  simp only [List.length_append, length_linspaceNoEnd, length_linspaceEnd,
    List.length_replicate]
  split <;>
  · rename_i hsplit
    simp only [Except.map, List.length_append, List.length_replicate,
      length_linspaceNoEnd, length_linspaceEnd, Except.ok.injEq]
    omega

/-- C1: the envelope generator is claimed to always return exactly
`floor(durationSec·sampleRate)` samples, truncating when the
attack+decay+release segments overshoot.  The code only zero-pads and never
truncates: at `note_duration = 0.2`, `sample_rate = 100` the segments give
`1 + 10 + 0 + 20 = 31` samples while `floor(0.2·100) = 20`, and the
generator returns all 31 samples. -/
theorem C1_envelope_length_not_truncated :
    (apply_adsr_envelope (1/5) 100).map List.length = .ok 31 ∧
    pyInt ((1/5) * 100) = 20 := by
  constructor
  · rw [apply_adsr_envelope_length (1/5) 100 (1/100) (1/10) (7/10) (1/5)
      1 10 20 20 (by norm_num [pyInt]) (by norm_num [pyInt])
      (by norm_num [pyInt]) (by norm_num [pyInt])
      (by norm_num) (by norm_num) (by norm_num)]
    norm_num
    decide
  · norm_num [pyInt]

/-- C6 counterexample: called with the non-positive duration `-1` (and sample
rate 100) the envelope generator does not fail at all: it returns the
un-truncated attack+decay+release envelope of 31 samples.  No
`InvalidParameterError` exists anywhere in the code. -/
theorem C6_counterexample_negative_duration_succeeds :
    (apply_adsr_envelope (-1) 100).map List.length = .ok 31 := by
  rw [apply_adsr_envelope_length (-1) 100 (1/100) (1/10) (7/10) (1/5)
      1 10 20 (-100) (by norm_num [pyInt]) (by norm_num [pyInt])
      (by norm_num [pyInt]) (by norm_num [pyInt])
      (by norm_num) (by norm_num) (by norm_num)]
  norm_num
  decide

/-- C6 (amended): `apply_adsr_envelope` performs no parameter validation and
never raises `InvalidParameterError` (that exception does not exist in the
code).  For every duration — positive or not — and positive sample rate it
returns an envelope successfully; only a negative sample rate can make the
underlying `np.linspace` raise (a `ValueError`, for a negative sample
count). -/
theorem C6_no_validation_ever (note_duration sample_rate : ℚ)
    (hsr : 0 < sample_rate) :
    ∃ l, apply_adsr_envelope note_duration sample_rate = .ok l :=
  apply_adsr_envelope_ok note_duration sample_rate _ _ _ _
    (by norm_num) (by norm_num) (by norm_num) (le_of_lt hsr)

/-- Witness for C6: the amended theorem applied at the claim's own failing
input, duration `-1` with sample rate `100`. -/
theorem C6_no_validation_ever_witness :
    (0 : ℚ) < 100 ∧ ∃ l, apply_adsr_envelope (-1) 100 = .ok l :=
  ⟨by norm_num, C6_no_validation_ever (-1) 100 (by norm_num)⟩

/-! ## pipeline.py: Normalizer (claim C4)

`Normalizer.process(pcm)` computes the global peak `max_val = np.max(np.abs(pcm))`,
divides the whole buffer by it when `max_val > 0`, and then *unconditionally*
adds TPDF dither noise, the sum of two uniform draws in `[-dither_amp,
dither_amp]` per sample.  The two draw arrays are passed explicitly here. -/

/-- Global peak absolute value `np.max(np.abs(pcm))` over a 2-D buffer. -/
def matMaxAbs (pcm : List (List ℚ)) : ℚ :=
  (pcm.flatten.map (fun x => |x|)).foldr max 0

/-- Elementwise sum of two equal-shape 2-D buffers. -/
def matAdd (a b : List (List ℚ)) : List (List ℚ) :=
  List.zipWith (List.zipWith (· + ·)) a b

/-- `pipeline.Normalizer(dither_amp).process(pcm)`, with the two
`np.random.uniform(-dither_amp, dither_amp, pcm.shape)` draws supplied as
`noise1` and `noise2`. -/
def Normalizer.process (dither_amp : ℚ) (pcm noise1 noise2 : List (List ℚ)) :
    List (List ℚ) :=
  let max_val := matMaxAbs pcm
  let scaled := if 0 < max_val
    then pcm.map (fun row => row.map (fun x => x / max_val)) else pcm
  let _ := dither_amp
  matAdd scaled (matAdd noise1 noise2)

theorem of_mem_zipWith {α β γ : Type} {f : α → β → γ} {as : List α}
    {bs : List β} {c : γ} (h : c ∈ List.zipWith f as bs) :
    ∃ a ∈ as, ∃ b ∈ bs, c = f a b := by
  induction as generalizing bs with
  | nil => simp at h
  | cons a as ih =>
    cases bs with
    | nil => simp at h
    | cons b bs =>
      rcases List.mem_cons.mp h with h | h
      · exact ⟨a, List.mem_cons_self .., b, List.mem_cons_self .., h⟩
      · obtain ⟨a', ha', b', hb', rfl⟩ := ih h
        exact ⟨a', List.mem_cons_of_mem _ ha', b', List.mem_cons_of_mem _ hb', rfl⟩

theorem foldr_max_nonpos {l : List ℚ} (h : ∀ x ∈ l, x ≤ 0) :
    l.foldr max 0 ≤ 0 := by
  induction l with
  | nil => simp
  | cons a l ih =>
    simp only [List.foldr_cons, max_le_iff]
    exact ⟨h a (List.mem_cons_self ..), ih fun x hx => h x (List.mem_cons_of_mem _ hx)⟩

theorem matMaxAbs_of_all_zero {pcm : List (List ℚ)}
    (hz : ∀ r ∈ pcm, ∀ x ∈ r, x = 0) : ¬0 < matMaxAbs pcm := by
  refine not_lt.mpr (foldr_max_nonpos ?_)
  intro x hx
  simp only [List.mem_map, List.mem_flatten] at hx
  obtain ⟨y, ⟨r, hr, hy⟩, rfl⟩ := hx
  rw [hz r hr y hy]
  simp

/-- C4 counterexample: an all-zero one-sample buffer is NOT returned
unchanged.  With `dither_amp = 1e-5` and both uniform draws equal to `1e-5`
(legal values of `np.random.uniform(-1e-5, 1e-5)`), the Normalizer returns
`[[2e-5]] ≠ [[0]]`: the dither noise is added unconditionally, also on
all-zero input. -/
theorem C4_counterexample_zero_buffer_dithered :
    Normalizer.process (1/100000) [[0]] [[1/100000]] [[1/100000]] = [[1/50000]] ∧
    ([[(1 : ℚ)/50000]] : List (List ℚ)) ≠ [[0]] := by
  constructor
  · unfold Normalizer.process matAdd matMaxAbs
    norm_num
  · intro h
    simp only [List.cons.injEq] at h
    have := h.1.1
    norm_num at this

/-- C4 (amended): on an all-zero input buffer the Normalizer skips the
division (the divide-by-zero guard holds, no scaling is performed) but still
adds the TPDF dither: the output is exactly `noise1 + noise2` added onto the
zero buffer, and when both draws respect their `[-d, d]` range every output
sample has absolute value at most `2·d`.  The output is therefore not the
unchanged input unless the dither draws happen to cancel. -/
theorem C4_zero_input_passes_undivided_plus_dither (d : ℚ)
    (pcm noise1 noise2 : List (List ℚ))
    (hz : ∀ r ∈ pcm, ∀ x ∈ r, x = 0)
    (h1 : ∀ r ∈ noise1, ∀ x ∈ r, |x| ≤ d)
    (h2 : ∀ r ∈ noise2, ∀ x ∈ r, |x| ≤ d) :
    Normalizer.process d pcm noise1 noise2 = matAdd pcm (matAdd noise1 noise2) ∧
    ∀ r ∈ Normalizer.process d pcm noise1 noise2, ∀ x ∈ r, |x| ≤ 2 * d := by
  have hproc : Normalizer.process d pcm noise1 noise2 =
      matAdd pcm (matAdd noise1 noise2) := by
    unfold Normalizer.process
    dsimp only
    rw [if_neg (matMaxAbs_of_all_zero hz)]
  refine ⟨hproc, ?_⟩
  rw [hproc]
  intro r hr x hx
  obtain ⟨rp, hrp, rn, hrn, rfl⟩ := of_mem_zipWith hr
  obtain ⟨xp, hxp, xn, hxn, rfl⟩ := of_mem_zipWith hx
  obtain ⟨r1, hr1, r2, hr2, rfl⟩ := of_mem_zipWith hrn
  obtain ⟨x1, hx1, x2, hx2, rfl⟩ := of_mem_zipWith hxn
  rw [hz rp hrp xp hxp, zero_add]
  calc |x1 + x2| ≤ |x1| + |x2| := abs_add x1 x2
    _ ≤ d + d := add_le_add (h1 r1 hr1 x1 hx1) (h2 r2 hr2 x2 hx2)
    _ = 2 * d := by ring

/-- Witness for C4's amended theorem: zero buffer `[[0]]`, draws `1e-5` and
`-1e-5`, dither amplitude `1e-5`. -/
theorem C4_zero_input_passes_undivided_plus_dither_witness :
    Normalizer.process (1/100000) [[0]] [[1/100000]] [[-1/100000]] =
      matAdd [[0]] (matAdd [[1/100000]] [[-1/100000]]) ∧
    ∀ r ∈ Normalizer.process (1/100000) [[0]] [[1/100000]] [[-1/100000]],
      ∀ x ∈ r, |x| ≤ 2 * (1/100000) :=
  C4_zero_input_passes_undivided_plus_dither (1/100000) [[0]] [[1/100000]]
    [[-1/100000]]
    (by intro r hr x hx; simp at hr; subst hr; simpa using hx)
    (by intro r hr x hx; simp at hr; subst hr; simp at hx; subst hx
        norm_num [abs_le])
    (by intro r hr x hx; simp at hr; subst hr; simp at hx; subst hx
        norm_num [abs_le])

/-! ## synthesizer.py: HybridSynthesizer (claims C7, C9, C10)

`synthesize_note` evaluates `np.sin(2*np.pi*freq*t)` in floating point; the
oscillator primitive is abstracted as an explicit function argument
`sinF : ℚ → ℚ` standing for `x ↦ np.sin(2·π·x)` — a fixed, deterministic
function with no hidden state.  Likewise `render`'s equal-temperament
frequency `440·2^((note-69)/12)` is a fixed function of the note number,
abstracted as `freqF : ℤ → ℚ`. -/

inductive EventKind : Type
  | note_on
  | note_off
  | tempo
  | sustain
  | pitch_bend
deriving DecidableEq

/-- One MIDI event dict: `{'type', 'note', 'velocity', 'time' (µs), 'channel'}`. -/
structure MidiEvent : Type where
  kind : EventKind
  note : ℤ := 0
  velocity : ℤ := 0
  time : ℤ := 0
  channel : ℤ := 0
deriving DecidableEq

/-- `HybridSynthesizer.synthesize_note(freq, duration, velocity)` at sample
rate `sample_rate`: tone `sin(2π·freq·t)` on `int(duration·rate)` linspace
points, times the ADSR envelope (both trimmed to the shorter length), times
`velocity/127`.  A negative sample count makes `np.linspace` raise. -/
def synthesize_note (sinF : ℚ → ℚ) (sample_rate : ℚ)
    (freq duration velocity : ℚ) : Except String (List ℚ) := do
  let num_samples := pyInt (duration * sample_rate)
  if num_samples < 0 then
    .error "ValueError: Number of samples must be non-negative"
  else
    let t := linspaceNoEnd 0 duration num_samples.toNat
    let tone := t.map (fun ti => sinF (freq * ti))
    let envelope ← apply_adsr_envelope duration sample_rate
    let min_len := min tone.length envelope.length
    let velocity_factor := velocity / 127
    return List.zipWith (fun a b => a * b * velocity_factor)
      (tone.take min_len) (envelope.take min_len)

/-- `start_sample = int(event['time'] * self.sample_rate / 1e6)` in
`HybridSynthesizer.render`: Python `int()` truncation, not rounding. -/
def voiceStartSample (time : ℤ) (sample_rate : ℚ) : ℤ :=
  pyInt ((time : ℚ) * sample_rate / 1000000)

/-- The clipped additive write
`audio[start_sample:end_sample, :] += tile(note_wave[:end_sample-start_sample])`
with `end_sample = min(start_sample + len(note_wave), num_samples)`: row `i`
receives `wave[i - start]` iff `start ≤ i < start + len(wave)` and `i` exists
in the buffer; rows outside that window — and indices beyond the buffer —
are untouched. -/
def addAt (audio : List (List ℚ)) (start : ℕ) (wave : List ℚ) :
    List (List ℚ) :=
  audio.mapIdx (fun i row =>
    if start ≤ i ∧ i < start + wave.length then
      row.map (fun x => x + wave.getD (i - start) 0)
    else row)

/-- Duration of a `note_on` at index `idx`: the first later `note_off` with
the same note and channel gives `max(0.1, off_time − on_time)` seconds;
otherwise the 0.5 s fallback. -/
def noteDurationSec (midi_events : List MidiEvent) (idx : ℕ)
    (e : MidiEvent) : ℚ :=
  match (midi_events.drop (idx + 1)).find? (fun s =>
      s.kind == .note_off && s.note == e.note && s.channel == e.channel) with
  | some s => max (1/10) ((s.time : ℚ) / 1000000 - (e.time : ℚ) / 1000000)
  | none => 1/2

/-- `HybridSynthesizer.render(midi_events)`: a zero master buffer of
`int(sample_rate·duration)` rows × `channels` columns; every `note_on` voice
is synthesized and additively mixed at its clipped start offset.  The
per-voice threads serialize their read-modify-write under the global lock
and rational addition is commutative, so the fold in event order gives the
value every schedule produces; a voice whose synthesis raises is skipped. -/
def render (sinF : ℚ → ℚ) (freqF : ℤ → ℚ) (sample_rate : ℚ) (channels : ℕ)
    (duration : ℚ) (midi_events : List MidiEvent) : List (List ℚ) :=
  let num_samples := (pyInt (sample_rate * duration)).toNat
  let init := List.replicate num_samples (List.replicate channels (0 : ℚ))
  midi_events.enum.foldl (fun audio ie =>
    if ie.2.kind = .note_on then
      match synthesize_note sinF sample_rate (freqF ie.2.note)
          (noteDurationSec midi_events ie.1 ie.2) (ie.2.velocity : ℚ) with
      | .error _ => audio
      | .ok wave =>
          addAt audio (voiceStartSample ie.2.time sample_rate).toNat wave
    else audio) init

theorem addAt_length (audio : List (List ℚ)) (start : ℕ) (wave : List ℚ) :
    (addAt audio start wave).length = audio.length := by
  rw [addAt, List.length_mapIdx]

theorem addAt_getD_outside (audio : List (List ℚ)) (start : ℕ)
    (wave : List ℚ) (i : ℕ)
    (h : i < start ∨ start + wave.length ≤ i) :
    (addAt audio start wave).getD i [] = audio.getD i [] := by
  by_cases hi : i < audio.length
  · have hi' : i < (addAt audio start wave).length := by
      rwa [addAt_length]
    rw [List.getD_eq_getElem _ _ hi', List.getD_eq_getElem _ _ hi]
    show (List.mapIdx _ audio).get ⟨i, hi'⟩ = audio.get ⟨i, hi⟩
    rw [List.get_mapIdx audio _ i hi]
    rw [if_neg (by omega)]
  · rw [List.getD_eq_default _ _ (show (addAt audio start wave).length ≤ i by
        rw [addAt_length]; omega),
      List.getD_eq_default _ _ (show audio.length ≤ i by omega)]

/-- C7 counterexample: for a NoteOn at `time = 125 µs` with
`sampleRate = 44100`, the code's start offset
`int(125·44100/1e6) = int(5.5125) = 5` differs from the claimed
`round(125/1e6·44100) = 6`: the offset is truncated, not rounded. -/
theorem C7_counterexample_offset_not_rounded :
    voiceStartSample 125 44100 ≠ round (((125 : ℚ) / 1000000) * 44100) := by
  have h1 : voiceStartSample 125 44100 = 5 := by
    norm_num [voiceStartSample, pyInt]
  have h2 : round (((125 : ℚ) / 1000000) * 44100) = 6 := by
    norm_num [round_eq]
  rw [h1, h2]
  decide

/-- C7 (amended): for every matched NoteOn, the voice's start offset into the
master buffer is `int(eventTimeMicros · sampleRate / 1e6)` — Python
truncation, not rounding — and the additive write is clipped to the buffer:
the write preserves the buffer's length (no sample beyond its end is
created), and every row before the start offset or at/after
`start + len(wave)` is left exactly unchanged. -/
theorem C7_truncated_offset_and_clipped_write (audio : List (List ℚ))
    (wave : List ℚ) (time : ℤ) (sample_rate : ℚ) :
    voiceStartSample time sample_rate =
      pyInt ((time : ℚ) * sample_rate / 1000000) ∧
    (addAt audio (voiceStartSample time sample_rate).toNat wave).length =
      audio.length ∧
    ∀ i : ℕ, i < (voiceStartSample time sample_rate).toNat ∨
        (voiceStartSample time sample_rate).toNat + wave.length ≤ i →
      (addAt audio (voiceStartSample time sample_rate).toNat wave).getD i [] =
        audio.getD i [] :=
  ⟨rfl, addAt_length .., fun _ h => addAt_getD_outside _ _ _ _ h⟩

/-- Witness for C7's amended theorem: NoteOn at `125 µs`, rate 44100
(start offset 5), two-row zero buffer, one-sample wave; row 0 lies before
the write window and is unchanged. -/
theorem C7_truncated_offset_and_clipped_write_witness :
    (voiceStartSample 125 44100 =
      pyInt ((125 : ℚ) * 44100 / 1000000) ∧
    (addAt [[0], [0]] (voiceStartSample 125 44100).toNat [1]).length = 2 ∧
    ∀ i : ℕ, i < (voiceStartSample 125 44100).toNat ∨
        (voiceStartSample 125 44100).toNat + [(1 : ℚ)].length ≤ i →
      (addAt [[0], [0]] (voiceStartSample 125 44100).toNat [1]).getD i [] =
        ([[0], [0]] : List (List ℚ)).getD i []) ∧
    (0 < (voiceStartSample 125 44100).toNat ∨
      (voiceStartSample 125 44100).toNat + [(1 : ℚ)].length ≤ 0) :=
  ⟨C7_truncated_offset_and_clipped_write [[0], [0]] [1] 125 44100,
    Or.inl (by norm_num [voiceStartSample, pyInt])⟩

/-! ## converter.py: UniversalConverter (claims C8, C10)

`_time_stretch` treats the buffer per channel; buffers are channel-major
here (one inner list per channel).  `scipy.signal.resample_poly` is an
external library collaborator; see `resample_poly` below. -/

/-- Modelled from the spec: `scipy.signal.resample_poly` is an external
collaborator — "band-limited (polyphase) interpolation — exact rational
resampling" whose exact output length "must be deterministic for identical
input".  Only the properties the claims use are modelled: the output has
scipy's documented length `ceil(len(x)·up/down)`, and when `up == down`
(i.e. the rational ratio reduces to 1) scipy returns a copy of the input
unchanged.  The sample values of a genuine rate change are band-limited
filter outputs not fixed by the spec and are modelled as zeros. -/
def resample_poly (x : List ℚ) (up down : ℕ) : List ℚ :=
  if up = down then x
  else List.replicate ⌈((x.length * up : ℕ) : ℚ) / down⌉₊ 0

/-- `pcm.shape[0]` of a channel-major buffer: the common channel length. -/
def shape0 (pcm : List (List ℚ)) : ℕ := (pcm.headD []).length

/-- `UniversalConverter._time_stretch(pcm, target_duration_sec)`: returns the
input when the current duration is `≤ 0`; otherwise resamples every channel
to `int(shape[0]·ratio)` samples with `ratio =
target_duration_sec/current_duration` (negative targets, which would make
`np.zeros` raise, do not arise: the target comes from `parse_target_length`
and is a nonnegative number of seconds). -/
def timeStretch (sample_rate : ℚ) (pcm : List (List ℚ))
    (target_duration_sec : ℚ) : List (List ℚ) :=
  let current_duration := (shape0 pcm : ℚ) / sample_rate
  if current_duration ≤ 0 then pcm
  else
    let ratio := target_duration_sec / current_duration
    let new_num_samples := (pyInt ((shape0 pcm : ℚ) * ratio)).toNat
    pcm.map (fun ch => resample_poly ch new_num_samples (shape0 pcm))

/-- `UniversalConverter.__init__`'s duration: for a nonempty event list,
`max(default_duration, last_event_time/1e6 + 0.5)`; otherwise the default. -/
def converterDuration (midi_events : List MidiEvent)
    (default_duration : ℚ) : ℚ :=
  match midi_events.getLast? with
  | some e => max default_duration ((e.time : ℚ) / 1000000 + 1/2)
  | none => default_duration

theorem pyInt_natCast (n : ℕ) : pyInt (n : ℚ) = n := by
  rw [pyInt_eq_floor (by positivity), Int.floor_natCast]

/-- C8 counterexample: a 1-channel 5-sample buffer at `sampleRate = 2`
(current duration 2.5 s) stretched to a 1.3 s target: the code resamples to
`int(5·(1.3/2.5)) = int(2.6) = 2` samples, while the claim's formula
`round(5·1.3/2.5) = round(2.6) = 3` demands 3. -/
theorem C8_counterexample_stretch_length_not_rounded :
    (timeStretch 2 [[1, 2, 3, 4, 5]] (13/10)).map List.length = [2] ∧
    round ((5 : ℚ) * ((13/10) / ((5 : ℚ) / 2))) = 3 := by
  constructor
  · have h5 : shape0 [[1, 2, 3, 4, 5]] = 5 := rfl
    unfold timeStretch
    rw [if_neg (by rw [h5]; norm_num)]
    have hnew : (pyInt ((shape0 [[(1:ℚ), 2, 3, 4, 5]] : ℚ) *
        ((13/10) / ((shape0 [[(1:ℚ), 2, 3, 4, 5]] : ℚ) / 2)))).toNat = 2 := by
      rw [h5]
      norm_num [pyInt]
      decide
    dsimp only
    rw [hnew, h5]
    show [(resample_poly [1, 2, 3, 4, 5] 2 5).length] = [2]
    unfold resample_poly
    rw [if_neg (by decide)]
    rw [List.length_replicate]
    norm_num
  · norm_num [round_eq]

/-- C8 (amended): whenever a target length is configured, `_time_stretch`
runs (the `convert` gate is `target_length_sec is not None`, not inequality
of durations); it resamples each channel to
`int(currentSamples · targetDurationSec/currentDurationSec)` samples —
truncation, not rounding — and when the target duration equals the current
duration the ratio is exactly 1, so the polyphase resampler returns every
channel unchanged and the buffer passes through identically. -/
theorem C8_stretch_truncates_and_ratio_one_is_identity
    (sample_rate target_duration_sec : ℚ) (pcm : List (List ℚ))
    (hrows : ∀ ch ∈ pcm, ch.length = shape0 pcm)
    (hpos : 0 < (shape0 pcm : ℚ) / sample_rate) :
    (∀ ch ∈ timeStretch sample_rate pcm target_duration_sec,
      ch.length = (pyInt ((shape0 pcm : ℚ) *
        (target_duration_sec / ((shape0 pcm : ℚ) / sample_rate)))).toNat) ∧
    (target_duration_sec = (shape0 pcm : ℚ) / sample_rate →
      timeStretch sample_rate pcm target_duration_sec = pcm) := by
  have hshape : 0 < shape0 pcm := by
    by_contra h
    have h0 : shape0 pcm = 0 := by omega
    rw [h0] at hpos
    norm_num at hpos
  have hne : ¬((shape0 pcm : ℚ) / sample_rate ≤ 0) := not_le.mpr hpos
  constructor
  · intro ch hch
    unfold timeStretch at hch
    rw [if_neg hne] at hch
    dsimp only at hch
    obtain ⟨ch₀, hch₀, rfl⟩ := List.mem_map.mp hch
    unfold resample_poly
    split
    · rename_i hud
      rw [hrows ch₀ hch₀, hud]
    · rw [List.length_replicate, hrows ch₀ hch₀]
      rw [Nat.cast_mul]
      rw [mul_comm ((shape0 pcm : ℕ) : ℚ), mul_div_assoc,
        div_self (by exact_mod_cast hshape.ne'), mul_one, Nat.ceil_natCast]
  · intro htgt
    unfold timeStretch
    rw [if_neg hne]
    dsimp only
    have hone : target_duration_sec / ((shape0 pcm : ℚ) / sample_rate) = 1 := by
      rw [htgt, div_self hpos.ne']
    rw [hone, mul_one, pyInt_natCast, Int.toNat_natCast]
    have : ∀ ch ∈ pcm, resample_poly ch (shape0 pcm) (shape0 pcm) = ch := by
      intro ch _
      unfold resample_poly
      rw [if_pos rfl]
    calc pcm.map (fun ch => resample_poly ch (shape0 pcm) (shape0 pcm))
        = pcm.map id := List.map_congr_left fun ch hch => this ch hch
      _ = pcm := List.map_id pcm

/-- Witness for C8's amended theorem: the 5-sample buffer at rate 2 with
target equal to the current duration 2.5 s. -/
theorem C8_stretch_truncates_and_ratio_one_is_identity_witness :
    ((∀ ch ∈ timeStretch 2 [[1, 2, 3, 4, 5]] (5/2),
      ch.length = (pyInt ((shape0 [[(1:ℚ), 2, 3, 4, 5]] : ℚ) *
        ((5/2) / ((shape0 [[(1:ℚ), 2, 3, 4, 5]] : ℚ) / 2)))).toNat) ∧
    ((5/2 : ℚ) = (shape0 [[(1:ℚ), 2, 3, 4, 5]] : ℚ) / 2 →
      timeStretch 2 [[1, 2, 3, 4, 5]] (5/2) = [[1, 2, 3, 4, 5]])) ∧
    timeStretch 2 [[1, 2, 3, 4, 5]] (5/2) = [[1, 2, 3, 4, 5]] := by
  have base := C8_stretch_truncates_and_ratio_one_is_identity 2 (5/2)
    [[1, 2, 3, 4, 5]]
    (by intro ch hch; simp at hch; subst hch; rfl)
    (by show (0:ℚ) < (shape0 [[(1:ℚ), 2, 3, 4, 5]] : ℚ) / 2; norm_num [shape0])
  exact ⟨base, base.2 (by norm_num [shape0])⟩

theorem addAt_forall_length {channels : ℕ} {audio : List (List ℚ)}
    (h : ∀ row ∈ audio, row.length = channels) (start : ℕ) (wave : List ℚ) :
    ∀ row ∈ addAt audio start wave, row.length = channels := by
  intro row hrow
  rw [addAt, List.mapIdx_eq_ofFn, List.mem_ofFn] at hrow
  obtain ⟨i, hi⟩ := hrow
  rw [← hi]
  dsimp only
  split
  · rw [List.length_map]
    exact h _ (audio.get_mem ..)
  · exact h _ (audio.get_mem ..)

/-- The master buffer keeps its allocated shape through the whole mixing
fold: `int(sample_rate·duration)` rows of `channels` entries each. -/
theorem render_shape (sinF : ℚ → ℚ) (freqF : ℤ → ℚ) (sample_rate : ℚ)
    (channels : ℕ) (duration : ℚ) (midi_events : List MidiEvent) :
    (render sinF freqF sample_rate channels duration midi_events).length =
      (pyInt (sample_rate * duration)).toNat ∧
    ∀ row ∈ render sinF freqF sample_rate channels duration midi_events,
      row.length = channels := by
  unfold render
  dsimp only
  generalize midi_events.enum = l
  set step := fun (audio : List (List ℚ)) (ie : ℕ × MidiEvent) =>
    if ie.2.kind = .note_on then
      match synthesize_note sinF sample_rate (freqF ie.2.note)
          (noteDurationSec midi_events ie.1 ie.2) (ie.2.velocity : ℚ) with
      | .error _ => audio
      | .ok wave =>
          addAt audio (voiceStartSample ie.2.time sample_rate).toNat wave
    else audio with hstep
  have key : ∀ (l : List (ℕ × MidiEvent)) (audio : List (List ℚ)),
      (∀ row ∈ audio, row.length = channels) →
      (l.foldl step audio).length = audio.length ∧
      ∀ row ∈ l.foldl step audio, row.length = channels := by
    intro l
    induction l with
    | nil => exact fun audio h => ⟨rfl, h⟩
    | cons ie l ih =>
      intro audio h
      have hone : (step audio ie).length = audio.length ∧
          ∀ row ∈ step audio ie, row.length = channels := by
        rw [hstep]
        dsimp only
        split
        · split
          · exact ⟨rfl, h⟩
          · exact ⟨addAt_length .., addAt_forall_length h _ _⟩
        · exact ⟨rfl, h⟩
      rw [List.foldl_cons]
      obtain ⟨hlen, hrows⟩ := ih (step audio ie) hone.2
      exact ⟨hlen.trans hone.1, hrows⟩
  have hinit : ∀ row ∈ List.replicate (pyInt (sample_rate * duration)).toNat
      (List.replicate channels (0 : ℚ)), row.length = channels := by
    intro row hrow
    rw [List.eq_of_mem_replicate hrow, List.length_replicate]
  obtain ⟨hlen, hrows⟩ := key l _ hinit
  exact ⟨hlen.trans (List.length_replicate ..), hrows⟩

/-- C10: for a nonempty event sequence the total render duration is
`max(defaultDurationSec, lastEventTimeMicros/1e6 + 0.5)` seconds and for an
empty sequence it is `defaultDurationSec`; the master buffer allocated by
`render` has exactly `int(sampleRate·duration)` rows (which equals
`floor(sampleRate·duration)` whenever that product is nonnegative, as it is
for valid configurations) and `channels` columns. -/
theorem C10_duration_rule_and_buffer_shape (sinF : ℚ → ℚ) (freqF : ℤ → ℚ)
    (sample_rate default_duration : ℚ) (channels : ℕ)
    (midi_events : List MidiEvent) :
    (∀ e, midi_events.getLast? = some e →
      converterDuration midi_events default_duration =
        max default_duration ((e.time : ℚ) / 1000000 + 1/2)) ∧
    (midi_events = [] →
      converterDuration midi_events default_duration = default_duration) ∧
    (render sinF freqF sample_rate channels
        (converterDuration midi_events default_duration) midi_events).length =
      (pyInt (sample_rate * converterDuration midi_events default_duration)).toNat ∧
    (∀ row ∈ render sinF freqF sample_rate channels
        (converterDuration midi_events default_duration) midi_events,
      row.length = channels) ∧
    (0 ≤ sample_rate * converterDuration midi_events default_duration →
      pyInt (sample_rate * converterDuration midi_events default_duration) =
        ⌊sample_rate * converterDuration midi_events default_duration⌋) := by
  refine ⟨?_, ?_, (render_shape ..).1, (render_shape ..).2,
    fun h => pyInt_eq_floor h⟩
  · intro e he
    unfold converterDuration
    rw [he]
  · intro he
    unfold converterDuration
    rw [he]
    rfl

/-- Witness for C10: one NoteOn at `t = 0` µs, default duration 1 s, sample
rate 100, stereo.  The duration is `max(1, 0 + 0.5) = 1` and the buffer has
`int(100·1) = 100` rows of 2 entries. -/
theorem C10_duration_rule_and_buffer_shape_witness :
    (converterDuration [⟨.note_on, 60, 100, 0, 0⟩] 1 =
      max 1 (((0 : ℤ) : ℚ) / 1000000 + 1/2) ∧
    (render (fun x => x) (fun _ => 440) 100 2
        (converterDuration [⟨.note_on, 60, 100, 0, 0⟩] 1)
        [⟨.note_on, 60, 100, 0, 0⟩]).length =
      (pyInt (100 * converterDuration [⟨.note_on, 60, 100, 0, 0⟩] 1)).toNat ∧
    ∀ row ∈ render (fun x => x) (fun _ => 440) 100 2
        (converterDuration [⟨.note_on, 60, 100, 0, 0⟩] 1)
        [⟨.note_on, 60, 100, 0, 0⟩], row.length = 2) ∧
    converterDuration [⟨.note_on, 60, 100, 0, 0⟩] 1 = 1 ∧
    (pyInt (100 * converterDuration [⟨.note_on, 60, 100, 0, 0⟩] 1)).toNat = 100 := by
  have base := C10_duration_rule_and_buffer_shape (fun x => x) (fun _ => 440)
    100 1 2 [⟨.note_on, 60, 100, 0, 0⟩]
  have hdur : converterDuration [⟨.note_on, 60, 100, 0, 0⟩] 1 = 1 := by
    rw [base.1 ⟨.note_on, 60, 100, 0, 0⟩ rfl]
    norm_num
  refine ⟨⟨base.1 ⟨.note_on, 60, 100, 0, 0⟩ rfl, base.2.2.1, base.2.2.2.1⟩,
    hdur, ?_⟩
  rw [hdur]
  norm_num [pyInt]
  decide

/-! ## effects.py (claims C3, C5)

The effects use transcendental primitives (`np.tan`, `np.cos`, `np.exp`,
`np.sin` free; `10**(gain_db/20)`), so this part of the embedding lives in
`ℝ`.  Buffers are channel-major (`for ch in range(num_channels)` loops). -/

noncomputable section

/-- Python `int(x)` on a real scalar: truncation toward zero. -/
def pyIntR (x : ℝ) : ℤ := if 0 ≤ x then ⌊x⌋ else -⌊-x⌋

/-- One EQ band dict `{'gain_db', 'center_freq', 'Q'}`. -/
structure EqBand : Type where
  gain_db : ℝ := 0
  center_freq : ℝ := 1000
  Q : ℝ := 1

/-- `scipy.signal.iirpeak(w0, Q)` (external library collaborator),
transcribed from scipy's published design
(`scipy.signal._filter_design._design_notch_peak_filter`, `ftype="peak"`,
`fs = 2`): a second-order *resonant band-pass* ("peak") filter at normalized
frequency `w0 ∈ (0,1)` — `bw = w0/Q`, `gb = 1/√2`,
`beta = (√(1-gb²)/gb)·tan(π·bw/2)`, `gain = 1/(1+beta)`,
`b = (1-gain)·[1, 0, -1]`, `a = [1, -2·gain·cos(π·w0), 2·gain-1]`.
(scipy additionally raises for `w0` outside `(0,1)`; every use considered
here stays inside that range.)  Note this is a band-pass that rejects all
components outside its narrow band — not a unity-at-0dB peaking-EQ bell. -/
def iirpeak (w0 Q : ℝ) : (ℝ × ℝ × ℝ) × (ℝ × ℝ × ℝ) :=
  let bw := w0 / Q
  let w0' := w0 * Real.pi
  let bw' := bw * Real.pi
  let gb : ℝ := 1 / Real.sqrt 2
  let beta := (Real.sqrt (1 - gb ^ 2) / gb) * Real.tan (bw' / 2)
  let gain := 1 / (1 + beta)
  ((1 - gain, 0, -(1 - gain)),
   (1, -2 * gain * Real.cos w0', 2 * gain - 1))

/-- `scipy.signal.lfilter(b, a, x)` for second-order sections, direct-form
difference equation `a0·y[n] = b0·x[n] + b1·x[n-1] + b2·x[n-2] - a1·y[n-1]
- a2·y[n-2]` with zero initial conditions; scipy divides through by `a[0]`. -/
def lfilterGo (b0 b1 b2 a1 a2 : ℝ) :
    List ℝ → ℝ → ℝ → ℝ → ℝ → List ℝ
  | [], _, _, _, _ => []
  | x :: xs, x1, x2, y1, y2 =>
    let y := b0 * x + b1 * x1 + b2 * x2 - a1 * y1 - a2 * y2
    y :: lfilterGo b0 b1 b2 a1 a2 xs x x1 y y1

/-- `scipy.signal.lfilter` on 3-tap numerator/denominator. -/
def lfilter (b a : ℝ × ℝ × ℝ) (x : List ℝ) : List ℝ :=
  lfilterGo (b.1 / a.1) (b.2.1 / a.1) (b.2.2 / a.1)
    (a.2.1 / a.1) (a.2.2 / a.1) x 0 0 0 0

/-- One band of `effects.apply_advanced_eq` applied to one channel:
`b, a = iirpeak(center_freq/(sample_rate/2), Q)`, the numerator scaled by
`10**(gain_db/20)`, then `lfilter(b, a, channel)`. -/
def applyBand (sample_rate : ℝ) (band : EqBand) (x : List ℝ) : List ℝ :=
  let normalized_center := band.center_freq / (sample_rate / 2)
  let ba := iirpeak normalized_center band.Q
  let gain_factor := (10 : ℝ) ^ (band.gain_db / 20)
  lfilter (gain_factor * ba.1.1, gain_factor * ba.1.2.1,
    gain_factor * ba.1.2.2) ba.2 x

/-- `effects.apply_advanced_eq(pcm, sample_rate, bands)`: the bands are
cascaded in order, each filtering every channel. -/
def apply_advanced_eq (pcm : List (List ℝ)) (sample_rate : ℝ)
    (bands : List EqBand := [{}]) : List (List ℝ) :=
  bands.foldl (fun processed band =>
    processed.map (applyBand sample_rate band)) pcm

end

theorem tan_pi_mul_pos {c : ℝ} (h0 : 0 < c) (h1 : c < 1/2) :
    0 < Real.tan (c * Real.pi) := by
  apply Real.tan_pos_of_pos_of_lt_pi_div_two
  · positivity
  · calc c * Real.pi < (1/2) * Real.pi :=
        mul_lt_mul_of_pos_right h1 Real.pi_pos
      _ = Real.pi / 2 := by ring

/-- In `iirpeak` the quality-bandwidth ratio `√(1-gb²)/gb` with `gb = 1/√2`
is exactly 1, so `beta = tan(π·bw/2)` and the first numerator coefficient is
`1 - gain = 1 - 1/(1 + tan(w0/Q·π/2))`. -/
theorem iirpeak_b0 (w0 Q : ℝ) :
    (iirpeak w0 Q).1.1 = 1 - 1 / (1 + Real.tan (w0 / Q * Real.pi / 2)) := by
  have h2 : (0 : ℝ) < Real.sqrt 2 := Real.sqrt_pos.mpr (by norm_num)
  have hsq : (1 / Real.sqrt 2 : ℝ) ^ 2 = 1 / 2 := by
    rw [div_pow, one_pow, Real.sq_sqrt (by norm_num : (0:ℝ) ≤ 2)]
  have hgb : Real.sqrt (1 - (1 / Real.sqrt 2 : ℝ) ^ 2) / (1 / Real.sqrt 2) = 1 := by
    rw [hsq, show (1:ℝ) - 1/2 = 2⁻¹ by norm_num, Real.sqrt_inv, one_div,
      div_self (inv_ne_zero h2.ne')]
  unfold iirpeak
  dsimp only
  rw [hgb, one_mul]

/-- C3: a single EQ band with `gain_db = 0` (default centre 1000 Hz, Q = 1,
sample rate 44100) is NOT an identity pass.  `scipy.signal.iirpeak` designs
a resonant band-pass, so on the one-sample impulse `[[1.0]]` the filter
outputs `1 - 1/(1 + tan(10π/441)) ≈ 0.0666 ≠ 1`: the 0 dB band rewrites the
whole signal instead of leaving it unchanged. -/
theorem C3_zero_gain_band_not_identity :
    apply_advanced_eq [[1]] 44100 [{ gain_db := 0 }] ≠ [[1]] := by
  have happ : apply_advanced_eq [[1]] 44100 [{ gain_db := 0 }] =
      [[(iirpeak (1000 / (44100 / 2)) 1).1.1]] := by
    unfold apply_advanced_eq applyBand lfilter
    simp only [List.foldl_cons, List.foldl_nil, List.map_cons, List.map_nil]
    rw [zero_div, Real.rpow_zero]
    simp only [lfilterGo]
    dsimp only [iirpeak]
    norm_num
  have harg : (1000 / (44100 / 2) : ℝ) / 1 * Real.pi / 2 =
      (10 / 441 : ℝ) * Real.pi := by
    norm_num
    ring
  have hb0 : (iirpeak (1000 / (44100 / 2)) 1).1.1 =
      1 - 1 / (1 + Real.tan ((10 / 441 : ℝ) * Real.pi)) := by
    rw [iirpeak_b0, harg]
  have htan : 0 < Real.tan ((10 / 441 : ℝ) * Real.pi) :=
    tan_pi_mul_pos (by norm_num) (by norm_num)
  have hgain : 0 < 1 / (1 + Real.tan ((10 / 441 : ℝ) * Real.pi)) := by
    have : (0:ℝ) < 1 + Real.tan ((10 / 441 : ℝ) * Real.pi) := by linarith
    positivity
  rw [happ, hb0]
  intro h
  have hval : 1 - 1 / (1 + Real.tan ((10 / 441 : ℝ) * Real.pi)) = 1 := by
    have := congrArg (fun l => (l.headD []).headD 0) h
    simpa using this
  linarith

noncomputable section

/-- `np.max(np.abs(l))` over one 1-D array (0 for the empty array, which the
reverb never produces at a positive sample rate). -/
def listMaxAbsR (l : List ℝ) : ℝ := (l.map (fun x => |x|)).foldr max 0

/-- The reverb's `if np.max(np.abs(ir)) != 0: ir = ir / np.max(np.abs(ir))`
normalization step. -/
def normalizeByPeak (l : List ℝ) : List ℝ :=
  if listMaxAbsR l = 0 then l else l.map (fun x => x / listMaxAbsR l)

/-- Early reflections of `effects.apply_advanced_reverb`: a buffer of
`int(max(early_delay_ms)·sample_rate/1000) + 1` zeros with the direct
impulse `1.0` at index 0, an `early_decay` impulse written (in list order,
overwriting) at each in-range delay, then peak-normalized.  (`max` of the
nonempty Python list is `foldr max 0` here; the delays in use are
positive, where the two agree.) -/
def buildEarlyIR (sample_rate : ℝ) (early_delay_ms : List ℝ)
    (early_decay : ℝ) : List ℝ :=
  let early_ir_length := (pyIntR ((early_delay_ms.foldr max 0) *
    sample_rate / 1000) + 1).toNat
  let base := (List.replicate early_ir_length (0 : ℝ)).set 0 1
  let withReflections := early_delay_ms.foldl (fun ir delay_ms =>
    let delay_samples := (pyIntR (delay_ms * sample_rate / 1000)).toNat
    if delay_samples < early_ir_length then ir.set delay_samples early_decay
    else ir) base
  normalizeByPeak withReflections

/-- Late tail of the reverb: `int(tail_length_sec·sample_rate)` samples of
`randn(n)·exp(-3·t_n)·tail_decay^n` on the `endpoint=False` linspace
`t_n = tail_length_sec·n/len`, peak-normalized.  The `np.random.randn` draws
are the explicit argument `randn`. -/
def buildTailIR (sample_rate tail_decay tail_length_sec : ℝ)
    (randn : ℕ → ℝ) : List ℝ :=
  let tail_length := (pyIntR (tail_length_sec * sample_rate)).toNat
  let tail_ir := (List.range tail_length).map (fun n : ℕ =>
    randn n * Real.exp (-3 * (tail_length_sec * (n : ℝ) / tail_length)) *
      tail_decay ^ n)
  normalizeByPeak tail_ir

/-- The combined impulse response: both parts zero-padded to the longer
length and summed, with no renormalization after the sum. -/
def reverbIR (sample_rate : ℝ) (randn : ℕ → ℝ) (early_delay_ms : List ℝ)
    (early_decay tail_decay tail_length_sec : ℝ) : List ℝ :=
  let early_ir := buildEarlyIR sample_rate early_delay_ms early_decay
  let tail_ir := buildTailIR sample_rate tail_decay tail_length_sec randn
  let combined_length := max early_ir.length tail_ir.length
  List.zipWith (· + ·)
    (early_ir ++ List.replicate (combined_length - early_ir.length) 0)
    (tail_ir ++ List.replicate (combined_length - tail_ir.length) 0)

/-- `scipy.signal.fftconvolve(x, h, mode="full")` (external library
collaborator): the full linear convolution, `x.length + h.length - 1`
output samples with `out[k] = Σ_i x[i]·h[k-i]`.  (scipy computes it via
FFT; its mathematical content is this sum.) -/
def convFull (x h : List ℝ) : List ℝ :=
  (List.range (x.length + h.length - 1)).map (fun k : ℕ =>
    ∑ i ∈ Finset.range (k + 1), x.getD i 0 * h.getD (k - i) 0)

/-- `effects.apply_advanced_reverb(pcm, sample_rate, ...)`: per channel, the
wet signal is the full convolution with the combined IR truncated to the
channel's length, and the output is `(1 - wet_mix)·dry + wet_mix·wet`. -/
def apply_advanced_reverb (pcm : List (List ℝ)) (sample_rate : ℝ)
    (randn : ℕ → ℝ) (early_delay_ms : List ℝ := [20, 40, 60])
    (early_decay : ℝ := 6/10) (tail_decay : ℝ := 199/200)
    (tail_length_sec : ℝ := 3/2) (wet_mix : ℝ := 1/2) : List (List ℝ) :=
  let ir := reverbIR sample_rate randn early_delay_ms early_decay tail_decay
    tail_length_sec
  pcm.map (fun ch =>
    let wet := (convFull ch ir).take ch.length
    List.zipWith (fun dry w => (1 - wet_mix) * dry + wet_mix * w) ch wet)

end

theorem pyIntR_nonneg {x : ℝ} (h : 0 ≤ x) : 0 ≤ pyIntR x := by
  simp only [pyIntR, if_pos h]
  exact Int.floor_nonneg.mpr h

theorem length_normalizeByPeak (l : List ℝ) :
    (normalizeByPeak l).length = l.length := by
  rw [normalizeByPeak]
  split
  · rfl
  · rw [List.length_map]

theorem foldr_max_nonneg_R (l : List ℝ) : (0 : ℝ) ≤ l.foldr max 0 := by
  induction l with
  | nil => simp
  | cons a l ih => exact le_max_of_le_right ih

theorem buildEarlyIR_length_pos (sample_rate : ℝ) (early_delay_ms : List ℝ)
    (early_decay : ℝ) (hsr : 0 ≤ sample_rate) :
    0 < (buildEarlyIR sample_rate early_delay_ms early_decay).length := by
  unfold buildEarlyIR
  dsimp only
  rw [length_normalizeByPeak]
  have hfold : ∀ (ds : List ℝ) (ir : List ℝ),
      (ds.foldl (fun ir delay_ms =>
        let delay_samples := (pyIntR (delay_ms * sample_rate / 1000)).toNat
        if delay_samples < (pyIntR ((early_delay_ms.foldr max 0) *
            sample_rate / 1000) + 1).toNat then
          ir.set delay_samples early_decay
        else ir) ir).length = ir.length := by
    intro ds
    induction ds with
    | nil => exact fun _ => rfl
    | cons d ds ih =>
      intro ir
      rw [List.foldl_cons, ih]
      dsimp only
      split
      · rw [List.length_set]
      · rfl
  rw [hfold, List.length_set, List.length_replicate]
  have h0 : 0 ≤ pyIntR ((early_delay_ms.foldr max 0) * sample_rate / 1000) :=
    pyIntR_nonneg (div_nonneg
      (mul_nonneg (foldr_max_nonneg_R early_delay_ms) hsr) (by norm_num))
  omega

theorem reverbIR_length_pos (sample_rate : ℝ) (randn : ℕ → ℝ)
    (early_delay_ms : List ℝ) (early_decay tail_decay tail_length_sec : ℝ)
    (hsr : 0 ≤ sample_rate) :
    0 < (reverbIR sample_rate randn early_delay_ms early_decay tail_decay
      tail_length_sec).length := by
  unfold reverbIR
  dsimp only
  rw [List.length_zipWith, List.length_append, List.length_append,
    List.length_replicate, List.length_replicate]
  have he := buildEarlyIR_length_pos sample_rate early_delay_ms early_decay hsr
  omega

theorem zipWith_mix_left {w : ℝ} (hw : w = 0) :
    ∀ (ch wet : List ℝ), ch.length ≤ wet.length →
      List.zipWith (fun dry x => (1 - w) * dry + w * x) ch wet = ch := by
  subst hw
  intro ch
  induction ch with
  | nil => intro wet _; rfl
  | cons a ch ih =>
    intro wet hlen
    cases wet with
    | nil => simp at hlen
    | cons b wet =>
      rw [List.zipWith_cons_cons, ih wet (by simpa using hlen)]
      norm_num

theorem zipWith_mix_right {w : ℝ} (hw : w = 1) :
    ∀ (ch wet : List ℝ), wet.length ≤ ch.length →
      List.zipWith (fun dry x => (1 - w) * dry + w * x) ch wet = wet := by
  subst hw
  intro ch
  induction ch with
  | nil =>
    intro wet hlen
    rw [List.length_nil, Nat.le_zero, List.length_eq_zero] at hlen
    subst hlen
    rfl
  | cons a ch ih =>
    intro wet hlen
    cases wet with
    | nil => rfl
    | cons b wet =>
      rw [List.zipWith_cons_cons, ih wet (by simpa using hlen)]
      norm_num

theorem convFull_length (x h : List ℝ) :
    (convFull x h).length = x.length + h.length - 1 := by
  rw [convFull, List.length_map, List.length_range]

/-- C5: with the code's default reverb parameters, for every input buffer,
every sample rate `≥ 0`, every tail-noise draw and every `wet_mix`, the
output equals `(1 - wet_mix)·dry + wet_mix·wet` per sample, where `wet` is
each channel's full linear convolution with the combined impulse response,
truncated to the channel length; `wet_mix = 0` returns the input exactly
and `wet_mix = 1` returns exactly the convolved signal. -/
theorem C5_reverb_wet_dry_mix (pcm : List (List ℝ)) (sample_rate : ℝ)
    (randn : ℕ → ℝ) (wet_mix : ℝ) (hsr : 0 ≤ sample_rate) :
    (apply_advanced_reverb pcm sample_rate randn [20, 40, 60] (6/10)
        (199/200) (3/2) wet_mix =
      pcm.map (fun ch =>
        List.zipWith (fun dry w => (1 - wet_mix) * dry + wet_mix * w) ch
          ((convFull ch (reverbIR sample_rate randn [20, 40, 60] (6/10)
            (199/200) (3/2))).take ch.length))) ∧
    (apply_advanced_reverb pcm sample_rate randn [20, 40, 60] (6/10)
        (199/200) (3/2) 0 = pcm) ∧
    (apply_advanced_reverb pcm sample_rate randn [20, 40, 60] (6/10)
        (199/200) (3/2) 1 =
      pcm.map (fun ch => (convFull ch (reverbIR sample_rate randn
        [20, 40, 60] (6/10) (199/200) (3/2))).take ch.length)) := by
  have hir := reverbIR_length_pos sample_rate randn [20, 40, 60] (6/10)
    (199/200) (3/2) hsr
  have hwetlen : ∀ ch : List ℝ,
      ((convFull ch (reverbIR sample_rate randn [20, 40, 60] (6/10)
        (199/200) (3/2))).take ch.length).length = ch.length := by
    intro ch
    rw [List.length_take, convFull_length]
    omega
  refine ⟨rfl, ?_, ?_⟩
  · unfold apply_advanced_reverb
    dsimp only
    calc pcm.map _ = pcm.map id := List.map_congr_left fun ch _ =>
        zipWith_mix_left rfl ch _ (le_of_eq (hwetlen ch).symm)
      _ = pcm := List.map_id pcm
  · unfold apply_advanced_reverb
    dsimp only
    exact List.map_congr_left fun ch _ =>
      zipWith_mix_right rfl ch _ (le_of_eq (hwetlen ch))

/-- Witness for C5: a one-channel one-sample buffer at sample rate 1000 with
the all-zero noise draw and `wet_mix = 1/2`. -/
theorem C5_reverb_wet_dry_mix_witness :
    (apply_advanced_reverb [[1]] 1000 (fun _ => 0) [20, 40, 60] (6/10)
        (199/200) (3/2) (1/2) =
      [[(1 : ℝ)]].map (fun ch =>
        List.zipWith (fun dry w => (1 - (1/2 : ℝ)) * dry + (1/2) * w) ch
          ((convFull ch (reverbIR 1000 (fun _ => 0) [20, 40, 60] (6/10)
            (199/200) (3/2))).take ch.length))) ∧
    (apply_advanced_reverb [[1]] 1000 (fun _ => 0) [20, 40, 60] (6/10)
        (199/200) (3/2) 0 = [[1]]) ∧
    (apply_advanced_reverb [[1]] 1000 (fun _ => 0) [20, 40, 60] (6/10)
        (199/200) (3/2) 1 =
      [[(1 : ℝ)]].map (fun ch => (convFull ch (reverbIR 1000 (fun _ => 0)
        [20, 40, 60] (6/10) (199/200) (3/2))).take ch.length)) :=
  C5_reverb_wet_dry_mix [[1]] 1000 (fun _ => 0) (1/2) (by norm_num)

/-- C9: `synthesize_note` is a pure function of
`(freq, duration, velocity, sampleRate)` given the fixed deterministic
oscillator primitive: two calls with identical arguments return identical
waveforms — there is no randomness anywhere in the oscillator or envelope
path. -/
theorem C9_synthesize_note_deterministic (sinF : ℚ → ℚ)
    (f₁ f₂ d₁ d₂ v₁ v₂ r₁ r₂ : ℚ)
    (hf : f₁ = f₂) (hd : d₁ = d₂) (hv : v₁ = v₂) (hr : r₁ = r₂) :
    synthesize_note sinF r₁ f₁ d₁ v₁ = synthesize_note sinF r₂ f₂ d₂ v₂ := by
  rw [hf, hd, hv, hr]

/-- Witness for C9: two calls at `freq = 440`, `duration = 1`,
`velocity = 100`, `sampleRate = 48000` agree. -/
theorem C9_synthesize_note_deterministic_witness :
    (440 : ℚ) = 440 ∧ (1 : ℚ) = 1 ∧ (100 : ℚ) = 100 ∧ (48000 : ℚ) = 48000 ∧
    synthesize_note (fun x => x) 48000 440 1 100 =
      synthesize_note (fun x => x) 48000 440 1 100 :=
  ⟨rfl, rfl, rfl, rfl,
    C9_synthesize_note_deterministic (fun x => x) 440 440 1 1 100 100
      48000 48000 rfl rfl rfl rfl⟩

end Noteloom
